import Mathlib

/-!
Verification development for the SSFR road-traffic simulator
(`SSFR.py`): the key=value store codec, the network model built from a
decoded store, the traffic-light state machine, and the per-step flow
engine (fractional-rate injection, snapshot-based movement, wait
accumulation).

Modelling conventions.

* Python `int` is unbounded, so it is embedded as `Int`.
* Python `str` values are embedded as `String`; every string operation
  of the source (`strip`, `split`, `startswith`, `lower`, ...) is
  re-implemented below on the underlying character list, restricted to
  the ASCII data actually stored in the MIB file.
* The source keeps two `float` fields per road.  `_wait_accum` only
  ever receives integer increments (`vehicleCount * step_seconds`), so
  it is embedded as `Int`.  `_in_accumulator` receives increments
  `trafficRate * (step_seconds / 60.0)`; in exact (real) arithmetic its
  value is always an integer multiple of `1/60`, so the exact-arithmetic
  model stores it as an integer numerator over the fixed denominator 60
  (`inAccumulator60`).  The function `vehicles_fractional_addQ` is the
  literal `ℚ` transcription of the source, and the theorem
  `vfa_bridge` proves the two presentations agree, so nothing is lost
  by the integer representation.  A separate IEEE-754 double model
  (`F64`) is developed at the end to analyse the one claim that is
  genuinely about floating-point rounding.
* Python dicts are insertion ordered; they are embedded as association
  lists with in-place update (`upsert`), which reproduces both the
  lookup semantics and the iteration order.
-/

namespace SSFR

/-- Python truthiness / whitespace test for a character (ASCII subset of
`str.strip()` semantics: space, tab, newline, carriage return, form feed,
vertical tab). -/
def isSpace (c : Char) : Bool :=
  c == Char.ofNat 32 || c == Char.ofNat 9 || c == Char.ofNat 10 ||
  c == Char.ofNat 13 || c == Char.ofNat 12 || c == Char.ofNat 11

/-- The double-quote character. -/
def dquote : Char := Char.ofNat 34

/-- The single-quote character. -/
def squote : Char := Char.ofNat 39

/-- The newline character. -/
def nlChar : Char := Char.ofNat 10

/-- Drop the leading and trailing runs of characters satisfying `p`
(the semantics of Python `str.strip(chars)` for a one-character class,
and of `str.strip()` with `p := isSpace`). -/
def stripWith (p : Char → Bool) (l : List Char) : List Char :=
  ((l.dropWhile p).reverse.dropWhile p).reverse

/-- Python `value.strip()` on a string. -/
def pyStrip (s : String) : String :=
  (stripWith isSpace s.toList).asString

/-- Python `value.strip(c)` for a single strip character `c`: removes
every leading and every trailing occurrence of `c` (no matching of
pairs, any number of layers). -/
def pyStripChar (c : Char) (s : String) : String :=
  (stripWith (fun x => x == c) s.toList).asString

/-- Python `s.rstrip(c)` for one character: drop the trailing run. -/
def pyRstripChar (c : Char) (s : String) : String :=
  ((s.toList.reverse.dropWhile (fun x => x == c)).reverse).asString

/-- Membership of a character in a string (Python `c in line`). -/
def containsChar (s : String) (c : Char) : Bool :=
  s.toList.any (fun x => x == c)

/-- Split at the first occurrence of `c` (Python `s.split(c, 1)`): the
pair of the part before and the part after; if `c` does not occur, the
whole list is the first component. -/
def splitFirst (c : Char) : List Char → List Char × List Char
  | [] => ([], [])
  | x :: xs =>
    if x == c then ([], xs)
    else
      let r := splitFirst c xs
      (x :: r.1, r.2)

/-- Python `s.split(c, 1)[0]` as a string. -/
def splitFirstLeft (c : Char) (s : String) : String :=
  (splitFirst c s.toList).1.asString

/-- Python `s.split(c, 1)[1]` as a string (empty when `c` is absent;
the source only uses it on keys that do contain the separator). -/
def splitFirstRight (c : Char) (s : String) : String :=
  (splitFirst c s.toList).2.asString

/-- Python `s.startswith(pre)`. -/
def strStartsWith (s pre : String) : Bool :=
  pre.toList.isPrefixOf s.toList

/-- ASCII lower-casing of one character (Python `str.lower()` restricted
to the ASCII letters that appear in light-colour values). -/
def charLower (c : Char) : Char :=
  if 65 ≤ c.toNat && c.toNat ≤ 90 then Char.ofNat (c.toNat + 32) else c

/-- Python `s.lower()` (ASCII domain). -/
def strLower (s : String) : String :=
  (s.toList.map charLower).asString

/-- A decoded store: the key→value mapping produced by `parse_mib_text`,
as an insertion-ordered association list with unique keys (the embedding
of a Python `dict` of strings). -/
abbrev Store := List (String × String)

/-- Python `data[key] = val` on an insertion-ordered dict: replace the
value in place if the key exists, otherwise append. -/
def upsert (d : Store) (k v : String) : Store :=
  if d.any (fun p => p.1 == k) then
    d.map (fun p => if p.1 == k then (k, v) else p)
  else d ++ [(k, v)]

/-- Python `data.get(key)` on the decoded store. -/
def storeGet (d : Store) (k : String) : Option String :=
  (d.find? (fun p => p.1 == k)).map (fun p => p.2)

/-- Unquoting applied by `parse_mib_text` to a raw value:
`val.strip().strip('"').strip("'")` — whitespace-trim, then drop all
leading/trailing double quotes, then all leading/trailing single
quotes. -/
def parseValue (v : String) : String :=
  pyStripChar squote (pyStripChar dquote (pyStrip v))

/-- One iteration of the `parse_mib_text` loop over a raw line. -/
def parseLine (d : Store) (line : String) : Store :=
  let l := pyStrip line
  if l.toList.isEmpty || strStartsWith l "#" then d
  else if !(containsChar l (Char.ofNat 61)) then d
  else
    let kv := splitFirst (Char.ofNat 61) l.toList
    upsert d (pyStrip kv.1.asString) (parseValue kv.2.asString)

/-- `parse_mib_text` (SSFR.py lines 26–39) over the file's lines: build
the key→value store, skipping blank lines, `#` comments and lines
without `=`. -/
def parse_mib_text (lines : List String) : Store :=
  lines.foldl parseLine []

/-- The text-rewriting core of `atomic_write_mib` (SSFR.py lines 46–83):
the sequence of lines written to the replacement file.  For every
original line: lines without `=` and comment lines are copied verbatim
(modulo `rstrip("\n")`, a no-op on `splitlines` output); data lines
whose key is in `data_map` are re-emitted as `key = value`; all other
lines are copied verbatim.  Keys of `data_map` not present among the
original data lines are appended at the end in mapping order.  (The
file-system part — `.bak` backup, temp file, atomic rename — is not
modelled.) -/
def atomic_write_mib (raw_lines : List String) (data_map : Store) : List String :=
  let main := raw_lines.map (fun line =>
    if !(containsChar line (Char.ofNat 61)) || strStartsWith (pyStrip line) "#" then
      pyRstripChar nlChar line
    else
      let key := pyStrip (splitFirstLeft (Char.ofNat 61) line)
      match storeGet data_map key with
      | some v => key ++ " = " ++ v
      | none => pyRstripChar nlChar line)
  let existing_keys :=
    (raw_lines.filter (fun ln => containsChar ln (Char.ofNat 61))).map
      (fun ln => pyStrip (splitFirstLeft (Char.ofNat 61) ln))
  main ++ (data_map.filter (fun kv => !(existing_keys.contains kv.1))).map
    (fun kv => kv.1 ++ " = " ++ kv.2)

/-- Decimal-numeral parser backing `safe_int` (SSFR.py lines 111–115):
Python `int(float(val))` succeeds on an optionally signed decimal
numeral with an optional fractional part, and truncates toward zero —
which for such a numeral is the signed integer part.  `none` models
`float(val)` raising.  (Exponent forms, `inf`/`nan` and underscores are
outside the store's data domain and are not modelled.) -/
def parseIntOfFloat (val : String) : Option Int :=
  let l := stripWith isSpace val.toList
  let signRest : Int × List Char :=
    match l with
    | c :: rest =>
      if c == Char.ofNat 43 then (1, rest)
      else if c == Char.ofNat 45 then (-1, rest)
      else (1, l)
    | [] => (1, [])
  let sign := signRest.1
  let body := signRest.2
  let intDigits := body.takeWhile Char.isDigit
  let rest := body.dropWhile Char.isDigit
  let intVal : Int := intDigits.foldl (fun a c => a * 10 + (Int.ofNat (c.toNat - 48))) 0
  match rest with
  | [] => if intDigits.isEmpty then none else some (sign * intVal)
  | c :: fracs =>
    if c == Char.ofNat 46 && fracs.all Char.isDigit &&
        !(intDigits.isEmpty && fracs.isEmpty) then
      some (sign * intVal)
    else none

/-- `safe_int` (SSFR.py lines 111–115): `int(float(val))`, with the
given default when the conversion raises.  The default parameter of the
source (`default=0`) is made an explicit first argument. -/
def safe_int (d : Int) (val : String) : Int :=
  match parseIntOfFloat val with
  | some n => n
  | none => d

/-- One road segment (class `Road`, SSFR.py lines 89–108).  `roadId`
always equals `idx` in the source and is folded into `idx`.  The two
runtime `float` fields are embedded exactly: `inAccumulator60` is the
value of `_in_accumulator` multiplied by 60 (always an integer in exact
arithmetic, see `vfa_bridge`), and `waitAccum` is `_wait_accum`, which
only ever receives integer increments. -/
structure Road where
  idx : Int
  vehicleCount : Int
  trafficRate : Int
  trafficLightColor : String
  remainingTime : Int
  maxCapacity : Int
  outflowRate : Int
  greenLightTime : Int
  redLightTime : Int
  inAccumulator60 : Int
  waitAccum : Int
deriving Repr, DecidableEq

/-- The `Road.__init__` defaults for index `i` (SSFR.py lines 90–104). -/
def mkRoad (i : Int) : Road :=
  { idx := i, vehicleCount := 0, trafficRate := 0, trafficLightColor := "red",
    remainingTime := 0, maxCapacity := 1000, outflowRate := 0,
    greenLightTime := 30, redLightTime := 30, inAccumulator60 := 0, waitAccum := 0 }

/-- The per-road lookup `get(key)` inside `build_roads` (SSFR.py lines
123–128): try `key.<i>`, then the bare `key`. -/
def getField (data : Store) (i : Int) (key : String) : Option String :=
  match storeGet data (key ++ "." ++ toString i) with
  | some v => some v
  | none => storeGet data key

/-- Integer road attribute: `safe_int(get(key, default))` — when the key
is present its value is parsed with `safe_int`'s own default 0; when it
is absent the road's constructor default is kept (applying `safe_int`
to the integer default returns it unchanged). -/
def fieldInt (data : Store) (i : Int) (key : String) (rdef : Int) : Int :=
  match getField data i key with
  | some v => safe_int 0 v
  | none => rdef

/-- Building one road in `build_roads` (SSFR.py lines 120–146),
including the normalisation block: negative counts, rates and times are
clamped to 0 and a non-positive capacity is forced to 1000.  Note that
`vehicleCount` is *not* clamped to `maxCapacity`. -/
def build_road (data : Store) (i : Int) : Road :=
  let r0 := mkRoad i
  let color :=
    match getField data i "trafficLightColor" with
    | some v => strLower v
    | none => strLower r0.trafficLightColor
  let r : Road :=
    { r0 with
      vehicleCount := fieldInt data i "vehicleCount" r0.vehicleCount,
      trafficRate := fieldInt data i "trafficRate" r0.trafficRate,
      trafficLightColor := color,
      remainingTime := fieldInt data i "remainingTime" r0.remainingTime,
      maxCapacity := fieldInt data i "maxCapacity" r0.maxCapacity,
      outflowRate := fieldInt data i "outflowRate" r0.outflowRate,
      greenLightTime := fieldInt data i "greenLightTime" r0.greenLightTime,
      redLightTime := fieldInt data i "redLightTime" r0.redLightTime }
  { r with
    vehicleCount := if r.vehicleCount < 0 then 0 else r.vehicleCount,
    trafficRate := if r.trafficRate < 0 then 0 else r.trafficRate,
    outflowRate := if r.outflowRate < 0 then 0 else r.outflowRate,
    maxCapacity := if r.maxCapacity ≤ 0 then 1000 else r.maxCapacity,
    remainingTime := if r.remainingTime < 0 then 0 else r.remainingTime }

/-- `build_roads` (SSFR.py lines 118–147): roads `1..n` in ascending
order (the iteration order of the resulting Python dict). -/
def build_roads (data : Store) (n : Nat) : List Road :=
  (List.range n).map (fun j => build_road data (Int.ofNat j + 1))

/-- The index list of a road collection (the dict's key view). -/
def idxs (rs : List Road) : List Int :=
  rs.map (fun r => r.idx)

/-- Total number of vehicles in the network. -/
def sumVC (rs : List Road) : Int :=
  (rs.map (fun r => r.vehicleCount)).sum

/-- Dict lookup `roads[i]` / membership `i in roads`. -/
def findRoad (rs : List Road) (i : Int) : Option Road :=
  rs.find? (fun r => r.idx = i)

/-- Membership test `i in roads`. -/
def hasRoad (rs : List Road) (i : Int) : Bool :=
  rs.any (fun r => r.idx = i)

/-- The live vehicle count of road `i` (0 when absent; only used on
present roads). -/
def vcOf (rs : List Road) (i : Int) : Int :=
  match findRoad rs i with
  | some r => r.vehicleCount
  | none => 0

/-- In-place `roads[i].vehicleCount += d` on the dict of roads. -/
def updCount (rs : List Road) (i : Int) (d : Int) : List Road :=
  rs.map (fun r => if r.idx = i then { r with vehicleCount := r.vehicleCount + d } else r)

/-- `vehicles_fractional_add` (SSFR.py lines 153–162) in exact
arithmetic, with the accumulator carried as an integer number of
sixtieths: add `rate_per_min * step_sec` sixtieths, emit the whole part
`⌊accum/60⌋`, keep the remainder.  `vfa_bridge` (below) proves this
equal to the literal `ℚ` transcription `vehicles_fractional_addQ`. -/
def vehicles_fractional_add (rate_per_min step_sec accumulator60 : Int) : Int × Int :=
  let accum60 := accumulator60 + rate_per_min * step_sec
  let to_add := accum60 / 60
  (to_add, accum60 - to_add * 60)

/-- Literal transcription of `vehicles_fractional_add` over `ℚ`
(exact-real reading of the source's float arithmetic). -/
def vehicles_fractional_addQ (rate_per_min step_sec : Int) (accumulator : ℚ) : Int × ℚ :=
  let add_float : ℚ := (rate_per_min : ℚ) * ((step_sec : ℚ) / 60)
  let accum := accumulator + add_float
  let to_add : Int := ⌊accum⌋
  (to_add, accum - to_add)

/-- `vehicles_per_step` (SSFR.py lines 165–166):
`max(0, floor(rate_per_min * (step_sec / 60.0)))` in exact arithmetic
(`vps_bridge` below proves the floor identity against the `ℚ`
expression). -/
def vehicles_per_step (rate_per_min step_sec : Int) : Int :=
  max 0 ((rate_per_min * step_sec) / 60)

/-- The per-road body of `update_traffic_lights` (SSFR.py lines
174–192): decrement `remainingTime` by the step length while it is
positive, then, if it dropped to zero or below, perform exactly one
colour transition (green → yellow with the fixed yellow time, yellow →
red with the road's red time, red → green with the road's green time,
anything else → red defensively). -/
def updateLight (fixed_yellow step_seconds : Int) (r : Road) : Road :=
  let r1 :=
    if r.remainingTime > 0 then { r with remainingTime := r.remainingTime - step_seconds }
    else r
  if r1.remainingTime ≤ 0 then
    if r1.trafficLightColor = "green" then
      { r1 with trafficLightColor := "yellow", remainingTime := fixed_yellow }
    else if r1.trafficLightColor = "yellow" then
      { r1 with trafficLightColor := "red", remainingTime := r1.redLightTime }
    else if r1.trafficLightColor = "red" then
      { r1 with trafficLightColor := "green", remainingTime := r1.greenLightTime }
    else
      { r1 with trafficLightColor := "red", remainingTime := r1.redLightTime }
  else r1

/-- The remaining time after the decrement step of the light update
(step 1 of the per-road body): decreased by the step length when it was
positive, untouched otherwise. -/
def decTime (step_seconds : Int) (r : Road) : Int :=
  if r.remainingTime > 0 then r.remainingTime - step_seconds else r.remainingTime

/-- `update_traffic_lights` (SSFR.py lines 169–192) over the whole
network. -/
def update_traffic_lights (fixed_yellow step_seconds : Int) (rs : List Road) : List Road :=
  rs.map (updateLight fixed_yellow step_seconds)

/-- Injection phase (step 1 of `step`, SSFR.py lines 204–214), effect on
one road: run the fractional accumulator; when it emits `add > 0`
vehicles, admit `min add (max 0 (cap - count))` of them. -/
def injRoad (step_seconds : Int) (r : Road) : Road :=
  let p := vehicles_fractional_add r.trafficRate step_seconds r.inAccumulator60
  let r1 := { r with inAccumulator60 := p.2 }
  if p.1 > 0 then
    let space := max 0 (r1.maxCapacity - r1.vehicleCount)
    let add_ok := min p.1 space
    { r1 with vehicleCount := r1.vehicleCount + add_ok }
  else r1

/-- Vehicles admitted on one road by the injection phase (the amount
added to the step's `injected` counter). -/
def injAdmitted (step_seconds : Int) (r : Road) : Int :=
  let p := vehicles_fractional_add r.trafficRate step_seconds r.inAccumulator60
  if p.1 > 0 then min p.1 (max 0 (r.maxCapacity - r.vehicleCount)) else 0

/-- Injection attempts on one road: the accumulator output `add` when
positive (the amount the source tries to add). -/
def injAttempt (step_seconds : Int) (r : Road) : Int :=
  let p := vehicles_fractional_add r.trafficRate step_seconds r.inAccumulator60
  if p.1 > 0 then p.1 else 0

/-- Vehicles dropped on one road at injection (the amount added to the
step's `blocked` counter by the injection phase). -/
def injDropped (step_seconds : Int) (r : Road) : Int :=
  injAttempt step_seconds r - injAdmitted step_seconds r

/-- State threaded through the movement phase (step 2 of `step`): the
live road dict and the `moved`/`blocked` counters.  `egress` is a
specification-only counter that does not appear in the source: it
totals the vehicles the source removes from the network outright (no
destinations, or a destination id outside the dict), splitting `moved`
into internal transfers and external egress for the conservation
statement. -/
structure MoveSt where
  roads : List Road
  moved : Int
  blocked : Int
  egress : Int
deriving Repr, DecidableEq

/-- Movement of one allocation `alloc` from origin `rid` toward `dest`
(the inner loop body, SSFR.py lines 243–268): skip non-positive
allocations; an unknown destination is external egress (unconditional
removal); otherwise move `min alloc destSpace` vehicles, and when that
is not positive count the whole allocation as blocked. -/
def processAlloc (rid : Int) (st : MoveSt) (alloc : Int) (dest : Int) : MoveSt :=
  if alloc ≤ 0 then st
  else
    match findRoad st.roads dest with
    | none =>
      { st with roads := updCount st.roads rid (-alloc),
                moved := st.moved + alloc, egress := st.egress + alloc }
    | some destRoad =>
      let dest_space := max 0 (destRoad.maxCapacity - destRoad.vehicleCount)
      let actually_moved := min alloc dest_space
      if actually_moved ≤ 0 then { st with blocked := st.blocked + alloc }
      else
        { st with roads := updCount (updCount st.roads dest actually_moved) rid (-actually_moved),
                  moved := st.moved + actually_moved }

/-- The `can_cross` quantity of the movement loop:
`min(snapshotCount, vehicles_per_step(outflowRate, step))`. -/
def canCrossOf (step_seconds : Int) (r : Road) : Int :=
  min r.vehicleCount (vehicles_per_step r.outflowRate step_seconds)

/-- Python `dest_map.get(rid, [])`. -/
def destsOf (dest_map : List (Int × List Int)) (rid : Int) : List Int :=
  ((dest_map.find? (fun p => p.1 = rid)).map (fun p => p.2)).getD []

/-- The allocation for the destination at 0-based position `i` when
`can_cross` is split over `n` destinations: `can_cross / n` plus one
extra for the first `can_cross % n` positions. -/
def allocAt (can_cross n : Int) (i : Nat) : Int :=
  can_cross / n + (if (i : Int) < can_cross % n then 1 else 0)

/-- Movement decision for one origin road, taken against its snapshot
(the outer loop body, SSFR.py lines 218–271): red lights do not move;
`can_cross = min(snapshotCount, vehicles_per_step outflow step)`;
without destinations the vehicles leave the network; otherwise
`can_cross` is split evenly over the ordered destination list with the
first `can_cross mod |dests|` destinations receiving one extra. -/
def processOrigin (dest_map : List (Int × List Int)) (step_seconds : Int)
    (st : MoveSt) (r_snap : Road) : MoveSt :=
  if !(r_snap.trafficLightColor = "green" || r_snap.trafficLightColor = "yellow") then st
  else if canCrossOf step_seconds r_snap ≤ 0 then st
  else if (destsOf dest_map r_snap.idx).isEmpty then
    { st with roads := updCount st.roads r_snap.idx (-(canCrossOf step_seconds r_snap)),
              moved := st.moved + canCrossOf step_seconds r_snap,
              egress := st.egress + canCrossOf step_seconds r_snap }
  else
    ((destsOf dest_map r_snap.idx).enum).foldl
      (fun s p =>
        processAlloc r_snap.idx s
          (allocAt (canCrossOf step_seconds r_snap)
            ((destsOf dest_map r_snap.idx).length : Int) p.1) p.2)
      st

/-- The whole movement phase: fold the origins of the immutable
snapshot (taken after injection) in ascending id order over the live
state (SSFR.py lines 216–271). -/
def phaseMove (dest_map : List (Int × List Int)) (step_seconds : Int)
    (rs : List Road) : MoveSt :=
  rs.foldl (processOrigin dest_map step_seconds)
    { roads := rs, moved := 0, blocked := 0, egress := 0 }

/-- Wait-metric phase (step 3 of `step`, SSFR.py lines 274–275):
`_wait_accum += vehicleCount * step_seconds` on every road. -/
def phaseWait (step_seconds : Int) (rs : List Road) : List Road :=
  rs.map (fun r => { r with waitAccum := r.waitAccum + r.vehicleCount * step_seconds })

/-- The injection phase over the whole network (step 1 of `step`). -/
def phaseInject (step_seconds : Int) (rs : List Road) : List Road :=
  rs.map (injRoad step_seconds)

/-- The result of one simulation step: the updated network and the
step's counters.  `moved`, `injected` and `blocked` are the source's
summary dict; `egress`, `injectedBlocked` and `moveBlocked` are
specification-only decompositions (`blocked` is the sum of the latter
two, `moved` includes `egress`). -/
structure StepResult where
  roads : List Road
  moved : Int
  injected : Int
  blocked : Int
  egress : Int
  injectedBlocked : Int
  moveBlocked : Int
deriving Repr

/-- One simulation step (`step`, SSFR.py lines 195–277): update the
lights, inject with the fractional accumulator, move along the
destination map against a snapshot, then accumulate the wait metric. -/
def step (dest_map : List (Int × List Int)) (step_seconds fixed_yellow : Int)
    (rs : List Road) : StepResult :=
  let rs1 := update_traffic_lights fixed_yellow step_seconds rs
  let rs2 := phaseInject step_seconds rs1
  let injected := (rs1.map (injAdmitted step_seconds)).sum
  let injBlocked := (rs1.map (injDropped step_seconds)).sum
  let mv := phaseMove dest_map step_seconds rs2
  let rs4 := phaseWait step_seconds mv.roads
  { roads := rs4, moved := mv.moved, injected := injected,
    blocked := injBlocked + mv.blocked, egress := mv.egress,
    injectedBlocked := injBlocked, moveBlocked := mv.blocked }

/-- Iterated simulation steps (the driver loop of `run`, SSFR.py lines
333–344, restricted to the network state). -/
def iterSteps (dest_map : List (Int × List Int)) (step_seconds fixed_yellow : Int) :
    Nat → List Road → List Road
  | 0, rs => rs
  | n + 1, rs => iterSteps dest_map step_seconds fixed_yellow n
      (step dest_map step_seconds fixed_yellow rs).roads

/-- Python `dest_map.setdefault(origin, []).append(dest)`. -/
def destInsert (m : List (Int × List Int)) (o d : Int) : List (Int × List Int) :=
  if m.any (fun p => p.1 = o) then
    m.map (fun p => if p.1 = o then (p.1, p.2 ++ [d]) else p)
  else m ++ [(o, [d])]

/-- Construction of the destination map in `run` (SSFR.py lines
298–314): scan the decoded store in insertion order; every key of the
form `destinationRoadId.<idx>` whose paired `destinationId.<idx>`
exists contributes the edge `safe_int(val) → safe_int(destVal)`.  The
`try/except` guards of the source are unreachable because `safe_int`
never raises (it returns its default 0), so an unparsable value
contributes an edge with id 0 rather than being skipped. -/
def build_dest_map (data : Store) : List (Int × List Int) :=
  data.foldl
    (fun m kv =>
      if strStartsWith kv.1 "destinationRoadId." then
        let idx := splitFirstRight (Char.ofNat 46) kv.1
        let origin := safe_int 0 kv.2
        match storeGet data ("destinationId." ++ idx) with
        | none => m
        | some dest_val => destInsert m origin (safe_int 0 dest_val)
      else m)
    []

/-- The destination map actually used by `run` (SSFR.py lines 316–318):
the built map, with the fallback edge `1 → [2]` when the map is empty
and at least two roads exist. -/
def run_dest_map (data : Store) (num_roads : Int) : List (Int × List Int) :=
  let m := build_dest_map data
  if m.isEmpty && 2 ≤ num_roads then [(1, [2])] else m

/-- The capacity invariant of the specification: every road holds a
non-negative vehicle count that does not exceed its capacity. -/
def capOK (rs : List Road) : Prop :=
  ∀ r ∈ rs, 0 ≤ r.vehicleCount ∧ r.vehicleCount ≤ r.maxCapacity

instance : DecidablePred capOK := fun rs =>
  List.decidableBAll _ rs

/-- The successor colour in the light cycle described by the state
machine (green → yellow → red → green, anything else → red). -/
def nextColor (c : String) : String :=
  if c = "green" then "yellow"
  else if c = "yellow" then "red"
  else if c = "red" then "green"
  else "red"

/-- Total accumulator output of the injection phase of one step (the
number of vehicles the source *tries* to add over all roads). -/
def stepInjAttempt (step_seconds fixed_yellow : Int) (rs : List Road) : Int :=
  ((update_traffic_lights fixed_yellow step_seconds rs).map (injAttempt step_seconds)).sum

/-- Modelled from the spec: strip exactly one layer of *matching*
single or double quotes from the trimmed value, leaving any other value
unchanged apart from whitespace trimming.  This is the specification's
description of unquoting, stated independently of the source, for
comparison with `parseValue`. -/
def unquoteOneLayer (v : String) : String :=
  let l := (pyStrip v).toList
  match l with
  | c :: rest =>
    if rest ≠ [] && (c == dquote || c == squote) && rest.getLast? == some c then
      (rest.dropLast).asString
    else l.asString
  | [] => ""

/-- Arithmetic characterisation of one-character stripping, stated
independently of `stripWith` for the amended unquoting claim: remove
the maximal leading run of `c`, then the maximal trailing run of `c`,
expressed with `take`/`drop` and run lengths. -/
def stripRunsSpec (c : Char) (s : String) : String :=
  let l := s.toList
  let k := (l.takeWhile (fun x => x == c)).length
  let rest := l.drop k
  let m := (rest.reverse.takeWhile (fun x => x == c)).length
  (rest.take (rest.length - m)).asString

/-- Test road: the constructor defaults of `Road` with the six fields
exercised by the concrete scenarios overridden. -/
def testRoad (i vc out cap rt rate : Int) (col : String) : Road :=
  { mkRoad i with
    vehicleCount := vc
    outflowRate := out
    maxCapacity := cap
    remainingTime := rt
    trafficRate := rate
    trafficLightColor := col }

/-- Tie-break scenario of the specification: origins 1 and 2, both
green for the whole step, each with exactly one vehicle to send, both
routed to road 3, which has space for exactly one vehicle (4 of 5
used). -/
def tieNet : List Road :=
  [testRoad 1 1 1 1000 100 0 "green",
   testRoad 2 1 1 1000 100 0 "green",
   testRoad 3 4 0 5 100 0 "red"]

/-- Routing for the tie-break scenario: both origins feed road 3. -/
def tieMap : List (Int × List Int) := [(1, [3]), (2, [3])]

/-- Partial-move scenario: origin 1 can send 2 vehicles to road 2,
which has space for exactly one (4 of 5 used). -/
def partialNet : List Road :=
  [testRoad 1 2 2 1000 100 0 "green",
   testRoad 2 4 0 5 100 0 "red"]

/-- Decoded store whose road 1 starts over capacity (vehicleCount 2000,
maxCapacity 10): `build_roads` performs no clamping against
`maxCapacity`. -/
def overfullStore : Store :=
  [("numberOfRoads", "1"), ("vehicleCount.1", "2000"), ("maxCapacity.1", "10")]

/-- Store with an unparsable `destinationRoadId` value paired with a
parsable `destinationId`. -/
def badPairStore : Store :=
  [("destinationRoadId.1", "abc"), ("destinationId.1", "3")]

/-- Concrete store file (as produced by `splitlines`): comments, a
blank line, data lines and an unrecognized line. -/
def demoRaw : List String :=
  ["# TRAFFIC MIB", "", "mapName = \"city\"", "numberOfRoads = 2", "junk line"]

/-! Bit-exact model of IEEE-754 binary64 arithmetic, for the one claim
that depends on the source's actual `float` rounding (the fractional
injection accumulator).  A double is represented by its exact value
`m * 2^e`; every operation computes the exact rational result and
rounds it to 53 significant bits with round-to-nearest, ties-to-even —
the semantics of Python float arithmetic on the normal range (no
overflow, underflow or NaN occurs in the modelled computation). -/

/-- An IEEE binary64 value `m * 2^e` (normal range; `m = 0` encodes
zero). -/
structure F64 where
  m : Int
  e : Int
deriving Repr, DecidableEq

/-- Binary scaling loop: multiply the numerator or denominator by two
until `2^52 * den ≤ num < 2^53 * den`, adjusting the exponent, so that
`num / den` is a 53-bit mantissa.  Fuel-bounded structural recursion;
the fuel is ample for every exponent that arises here. -/
def normQ : Nat → Nat → Nat → Int → Nat × Nat × Int
  | 0, a, b, e => (a, b, e)
  | f + 1, a, b, e =>
    if a < 4503599627370496 * b then normQ f (2 * a) b (e - 1)
    else if 9007199254740992 * b ≤ a then normQ f a (2 * b) (e + 1)
    else (a, b, e)

/-- Round the exact rational value `(num / den) * 2^e0` to binary64
(round to nearest, ties to even). -/
def flVal (num : Int) (den : Nat) (e0 : Int) : F64 :=
  if num = 0 then ⟨0, 0⟩
  else
    let neg := num < 0
    let p := normQ 5000 num.natAbs den e0
    let q := p.1 / p.2.1
    let r := p.1 % p.2.1
    let q2 := if 2 * r < p.2.1 then q
      else if p.2.1 < 2 * r then q + 1
      else if q % 2 = 0 then q else q + 1
    ⟨if neg then -(q2 : Int) else (q2 : Int), p.2.2⟩

/-- Exact conversion of a (small) integer to binary64. -/
def F64.ofInt (n : Int) : F64 := flVal n 1 0

/-- Binary64 addition. -/
def F64.add (x y : F64) : F64 :=
  if y.e ≤ x.e then flVal (x.m * 2 ^ (x.e - y.e).toNat + y.m) 1 y.e
  else flVal (y.m * 2 ^ (y.e - x.e).toNat + x.m) 1 x.e

/-- Binary64 subtraction. -/
def F64.sub (x y : F64) : F64 := F64.add x ⟨-y.m, y.e⟩

/-- Binary64 multiplication. -/
def F64.mul (x y : F64) : F64 := flVal (x.m * y.m) 1 (x.e + y.e)

/-- Binary64 division. -/
def F64.div (x y : F64) : F64 :=
  flVal (if y.m < 0 then -x.m else x.m) y.m.natAbs (x.e - y.e)

/-- Python `math.floor` on a binary64 value (exact). -/
def floorF (x : F64) : Int :=
  if 0 ≤ x.e then x.m * 2 ^ x.e.toNat else x.m.fdiv (2 ^ (-x.e).toNat)

/-- `vehicles_fractional_add` as the source actually executes it, in
binary64 arithmetic: `add_float = rate * (step / 60.0)`,
`accum = accumulator + add_float`, `to_add = floor(accum)`,
`accum -= to_add`. -/
def vehicles_fractional_add_f64 (rate_per_min step_sec : Int) (accumulator : F64) :
    Int × F64 :=
  let add_float := F64.mul (F64.ofInt rate_per_min)
    (F64.div (F64.ofInt step_sec) (F64.ofInt 60))
  let accum := F64.add accumulator add_float
  let to_add := floorF accum
  (to_add, F64.sub accum (F64.ofInt to_add))

/-- Total vehicles emitted by the binary64 accumulator over `n` steps
at `trafficRate = 7`, `simulationStepSeconds = 10`, starting from 0.0
(first component), with the retained accumulator (second component). -/
def floatInjTotal : Nat → Int × F64
  | 0 => (0, F64.ofInt 0)
  | n + 1 =>
    let p := floatInjTotal n
    let q := vehicles_fractional_add_f64 7 10 p.2
    (p.1 + q.1, q.2)

/-- The same totals in the exact-arithmetic model. -/
def exactInjTotal : Nat → Int × Int
  | 0 => (0, 0)
  | n + 1 =>
    let p := exactInjTotal n
    let q := vehicles_fractional_add 7 10 p.2
    (p.1 + q.1, q.2)

/-- Iterated injection phase on one road (exact model). -/
def iterInj (step_seconds : Int) : Nat → Road → Road
  | 0, r => r
  | n + 1, r => iterInj step_seconds n (injRoad step_seconds r)

/-- Road for the fractional-accumulator scenario: `trafficRate = 7`,
ample capacity, empty to start with. -/
def c6road : Road := testRoad 1 0 0 1000000 100 7 "red"

end SSFR

namespace SSFR

/-- Bridge between the integer-numerator accumulator and the literal
`ℚ` transcription of `vehicles_fractional_add`: on an accumulator value
`a60/60` the two presentations emit the same vehicle count and agree on
the retained remainder. -/
theorem vfa_bridge (rate step a60 : Int) :
    vehicles_fractional_addQ rate step ((a60 : ℚ) / 60) =
      ((vehicles_fractional_add rate step a60).1,
       ((vehicles_fractional_add rate step a60).2 : ℚ) / 60) := by
  unfold vehicles_fractional_add vehicles_fractional_addQ
  have h1 : (a60 : ℚ) / 60 + (rate : ℚ) * ((step : ℚ) / 60) =
      ((a60 + rate * step : ℤ) : ℚ) / ((60 : ℕ) : ℚ) := by
    push_cast
    ring
  have h2 : ⌊(a60 : ℚ) / 60 + (rate : ℚ) * ((step : ℚ) / 60)⌋ =
      (a60 + rate * step) / 60 := by
    rw [h1, Rat.floor_intCast_div_natCast]
    norm_num
  refine Prod.ext ?_ ?_
  · simpa using h2
  · simp only [h2]
    push_cast
    rw [h1]
    push_cast
    field_simp
    ring

/-- Bridge for `vehicles_per_step`: the exact floor of
`rate * (step/60)` is the integer division used by the model. -/
theorem vps_bridge (rate step : Int) :
    max 0 ⌊(rate : ℚ) * ((step : ℚ) / 60)⌋ = vehicles_per_step rate step := by
  unfold vehicles_per_step
  have h1 : (rate : ℚ) * ((step : ℚ) / 60) = ((rate * step : ℤ) : ℚ) / ((60 : ℕ) : ℚ) := by
    push_cast
    ring
  rw [h1, Rat.floor_intCast_div_natCast]
  norm_num

/-- Claim C10: one call of the per-road light update changes the colour
at most once — the new colour is either the old one or its single-phase
successor, and in particular a green light never turns red within one
step, regardless of how large the step length is. -/
theorem light_at_most_one_transition (fy ss : Int) (r : Road) :
    ((updateLight fy ss r).trafficLightColor = r.trafficLightColor ∨
     (updateLight fy ss r).trafficLightColor = nextColor r.trafficLightColor) ∧
    (r.trafficLightColor = "green" → (updateLight fy ss r).trafficLightColor ≠ "red") := by
  rcases r with ⟨idx, vc, tr, col, rt, cap, out, g, rd, acc, w⟩
  unfold updateLight nextColor
  dsimp only
  split_ifs <;> simp_all

/-- Witness for C10 at a concrete green road with a huge step length:
the light does not reach red in one update. -/
theorem light_at_most_one_transition_witness :
    (updateLight 3 1000000 (testRoad 1 0 0 1000 5 0 "green")).trafficLightColor ≠ "red" :=
  (light_at_most_one_transition 3 1000000 (testRoad 1 0 0 1000 5 0 "green")).2 (by decide)

/-- Claim C5: the per-road light update first decrements
`remainingTime` by the step length when it is positive; then, if the
result is non-positive, it performs exactly one transition according to
the table — green → yellow with `remainingTime := fixedYellowTime`,
yellow → red with `remainingTime := redLightTime`, red → green with
`remainingTime := greenLightTime`, and any other colour is forced to
red with `remainingTime := redLightTime` — all for arbitrary step
length and fixed yellow time; in particular a green road with
`remainingTime = 5`, stepped with step length 5 and fixed yellow time
3, is yellow with `remainingTime = 3` after one update and red with
`remainingTime = redLightTime` after a second. -/
theorem light_update_transition_table (fy ss : Int) (r : Road) :
    (0 < decTime ss r →
      updateLight fy ss r = { r with remainingTime := decTime ss r }) ∧
    (decTime ss r ≤ 0 → r.trafficLightColor = "green" →
      updateLight fy ss r =
        { r with trafficLightColor := "yellow", remainingTime := fy }) ∧
    (decTime ss r ≤ 0 → r.trafficLightColor = "yellow" →
      updateLight fy ss r =
        { r with trafficLightColor := "red", remainingTime := r.redLightTime }) ∧
    (decTime ss r ≤ 0 → r.trafficLightColor = "red" →
      updateLight fy ss r =
        { r with trafficLightColor := "green", remainingTime := r.greenLightTime }) ∧
    (decTime ss r ≤ 0 → r.trafficLightColor ≠ "green" → r.trafficLightColor ≠ "yellow" →
      r.trafficLightColor ≠ "red" →
      updateLight fy ss r =
        { r with trafficLightColor := "red", remainingTime := r.redLightTime }) ∧
    (r.trafficLightColor = "green" → r.remainingTime = 5 →
      (updateLight 3 5 r).trafficLightColor = "yellow" ∧
      (updateLight 3 5 r).remainingTime = 3 ∧
      (updateLight 3 5 (updateLight 3 5 r)).trafficLightColor = "red" ∧
      (updateLight 3 5 (updateLight 3 5 r)).remainingTime = r.redLightTime) := by
  have hyg : ("yellow" : String) ≠ "green" := by decide
  have hrg : ("red" : String) ≠ "green" := by decide
  have hry : ("red" : String) ≠ "yellow" := by decide
  refine ⟨?_, ?_, ?_, ?_, ?_, ?_⟩
  · intro h
    by_cases hrt : r.remainingTime > 0
    · rw [show decTime ss r = r.remainingTime - ss from by unfold decTime; rw [if_pos hrt]] at h ⊢
      unfold updateLight
      rw [if_pos hrt]
      dsimp only
      rw [if_neg (by omega)]
    · rw [show decTime ss r = r.remainingTime from by unfold decTime; rw [if_neg hrt]] at h
      omega
  · intro hd hcol
    unfold updateLight
    by_cases hrt : r.remainingTime > 0
    · rw [show decTime ss r = r.remainingTime - ss from by unfold decTime; rw [if_pos hrt]] at hd
      rw [if_pos hrt]
      dsimp only
      rw [if_pos (by omega)]
      simp [hcol]
    · rw [show decTime ss r = r.remainingTime from by unfold decTime; rw [if_neg hrt]] at hd
      rw [if_neg hrt, if_pos hd]
      simp [hcol]
  · intro hd hcol
    unfold updateLight
    by_cases hrt : r.remainingTime > 0
    · rw [show decTime ss r = r.remainingTime - ss from by unfold decTime; rw [if_pos hrt]] at hd
      rw [if_pos hrt]
      dsimp only
      rw [if_pos (by omega)]
      simp [hcol, hyg]
    · rw [show decTime ss r = r.remainingTime from by unfold decTime; rw [if_neg hrt]] at hd
      rw [if_neg hrt, if_pos hd]
      simp [hcol, hyg]
  · intro hd hcol
    unfold updateLight
    by_cases hrt : r.remainingTime > 0
    · rw [show decTime ss r = r.remainingTime - ss from by unfold decTime; rw [if_pos hrt]] at hd
      rw [if_pos hrt]
      dsimp only
      rw [if_pos (by omega)]
      simp [hcol, hrg, hry]
    · rw [show decTime ss r = r.remainingTime from by unfold decTime; rw [if_neg hrt]] at hd
      rw [if_neg hrt, if_pos hd]
      simp [hcol, hrg, hry]
  · intro hd h1 h2 h3
    unfold updateLight
    by_cases hrt : r.remainingTime > 0
    · rw [show decTime ss r = r.remainingTime - ss from by unfold decTime; rw [if_pos hrt]] at hd
      rw [if_pos hrt]
      dsimp only
      rw [if_pos (by omega)]
      simp [h1, h2, h3]
    · rw [show decTime ss r = r.remainingTime from by unfold decTime; rw [if_neg hrt]] at hd
      rw [if_neg hrt, if_pos hd]
      simp [h1, h2, h3]
  · intro hc hrt
    unfold updateLight
    norm_num [hc, hrt, hyg]

/-- Witness for C5: every row of the transition table at a concrete
road (fixed yellow time 7, step length 5), plus the concrete
green/5/yellow-3/red scenario. -/
theorem light_update_transition_table_witness :
    updateLight 7 5 (testRoad 1 0 0 1000 100 0 "green")
      = { testRoad 1 0 0 1000 100 0 "green" with remainingTime := 95 } ∧
    updateLight 7 5 (testRoad 1 0 0 1000 2 0 "green")
      = { testRoad 1 0 0 1000 2 0 "green" with
          trafficLightColor := "yellow", remainingTime := 7 } ∧
    updateLight 7 5 (testRoad 2 0 0 1000 2 0 "yellow")
      = { testRoad 2 0 0 1000 2 0 "yellow" with
          trafficLightColor := "red", remainingTime := 30 } ∧
    updateLight 7 5 (testRoad 3 0 0 1000 2 0 "red")
      = { testRoad 3 0 0 1000 2 0 "red" with
          trafficLightColor := "green", remainingTime := 30 } ∧
    updateLight 7 5 (testRoad 4 0 0 1000 2 0 "blue")
      = { testRoad 4 0 0 1000 2 0 "blue" with
          trafficLightColor := "red", remainingTime := 30 } ∧
    ((updateLight 3 5 (testRoad 1 0 0 1000 5 0 "green")).trafficLightColor = "yellow" ∧
      (updateLight 3 5 (testRoad 1 0 0 1000 5 0 "green")).remainingTime = 3 ∧
      (updateLight 3 5 (updateLight 3 5
        (testRoad 1 0 0 1000 5 0 "green"))).trafficLightColor = "red" ∧
      (updateLight 3 5 (updateLight 3 5
        (testRoad 1 0 0 1000 5 0 "green"))).remainingTime = 30) :=
  ⟨(light_update_transition_table 7 5 (testRoad 1 0 0 1000 100 0 "green")).1 (by decide),
   (light_update_transition_table 7 5 (testRoad 1 0 0 1000 2 0 "green")).2.1
     (by decide) rfl,
   (light_update_transition_table 7 5 (testRoad 2 0 0 1000 2 0 "yellow")).2.2.1
     (by decide) rfl,
   (light_update_transition_table 7 5 (testRoad 3 0 0 1000 2 0 "red")).2.2.2.1
     (by decide) rfl,
   (light_update_transition_table 7 5 (testRoad 4 0 0 1000 2 0 "blue")).2.2.2.2.1
     (by decide) (by decide) (by decide) (by decide),
   (light_update_transition_table 3 5 (testRoad 1 0 0 1000 5 0 "green")).2.2.2.2.2
     rfl rfl⟩

/-- Claim C4: in the tie-break scenario — origins 1 and 2 both green,
both routing their whole outflow (one vehicle each) to road 3, which
has free space for exactly one vehicle — the ascending-id processing
order lets road 1's allocation through while road 2's allocation is
recorded as blocked. -/
theorem tie_break_lower_id_first :
    (step tieMap 60 4 tieNet).moved = 1 ∧ (step tieMap 60 4 tieNet).blocked = 1 ∧
    (step tieMap 60 4 tieNet).injected = 0 ∧
    vcOf (step tieMap 60 4 tieNet).roads 1 = 0 ∧
    vcOf (step tieMap 60 4 tieNet).roads 2 = 1 ∧
    vcOf (step tieMap 60 4 tieNet).roads 3 = 5 := by decide

/-- Counterexample to claim C3 as stated: a partial move (allocation 2,
destination space 1) moves one vehicle and leaves the shortfall of one
vehicle on the origin road without adding anything to the step's
blocked counter — `blocked = 0`, not `1`. -/
theorem partial_move_shortfall_not_blocked :
    (step [(1, [2])] 60 4 partialNet).blocked = 0 ∧
    (step [(1, [2])] 60 4 partialNet).moved = 1 ∧
    vcOf (step [(1, [2])] 60 4 partialNet).roads 1 = 1 ∧
    vcOf (step [(1, [2])] 60 4 partialNet).roads 2 = 5 := by decide

/-- Claim C3 (amended): for an allocation toward a known destination,
exactly `min alloc destSpace` vehicles move (origin decremented,
destination incremented); the whole allocation is added to the blocked
counter exactly when that minimum is not positive, and a partial move
(0 < actuallyMoved < alloc) adds nothing to the blocked counter — the
shortfall stays on the origin road. -/
theorem alloc_move_blocked_spec (rid alloc dest : Int) (st : MoveSt) (dr : Road)
    (hfind : findRoad st.roads dest = some dr) (hpos : 0 < alloc) :
    (0 < min alloc (max 0 (dr.maxCapacity - dr.vehicleCount)) →
      processAlloc rid st alloc dest =
        { st with
          roads := updCount (updCount st.roads dest
              (min alloc (max 0 (dr.maxCapacity - dr.vehicleCount)))) rid
              (-(min alloc (max 0 (dr.maxCapacity - dr.vehicleCount)))),
          moved := st.moved + min alloc (max 0 (dr.maxCapacity - dr.vehicleCount)) }) ∧
    (min alloc (max 0 (dr.maxCapacity - dr.vehicleCount)) ≤ 0 →
      processAlloc rid st alloc dest = { st with blocked := st.blocked + alloc }) := by
  unfold processAlloc
  rw [if_neg (by omega), hfind]
  dsimp only
  constructor
  · intro h
    rw [if_neg (by omega)]
  · intro h
    rw [if_pos h]

/-- Witness for the amended C3 at the partial-move input: allocation 2
toward road 2 of `partialNet` (space 1) moves exactly one vehicle and
does not touch the blocked counter. -/
theorem alloc_move_blocked_spec_witness :
    processAlloc 1 { roads := partialNet, moved := 0, blocked := 0, egress := 0 } 2 2 =
      { roads := updCount (updCount partialNet 2 1) 1 (-1),
        moved := 1, blocked := 0, egress := 0 } := by
  have h := alloc_move_blocked_spec 1 2 2
    { roads := partialNet, moved := 0, blocked := 0, egress := 0 }
    (testRoad 2 4 0 5 100 0 "red") (by decide) (by decide)
  have h2 := h.1 (by decide)
  rw [h2]
  decide

/-- Claim C7 (showing the code bug): the routing pair with unparsable
origin value `"abc"` is not skipped — `safe_int` never raises, so the
pair contributes the edge `0 → 3`, and in particular the destination
map is non-empty, which also suppresses the `1 → [2]` fallback. -/
theorem unparsable_pair_contributes_zero_edge :
    build_dest_map badPairStore = [(0, [3])] ∧
    run_dest_map badPairStore 2 = [(0, [3])] := by decide

/-- Counterexample to claim C1 as stated: a decoded store may supply a
vehicle count above the capacity (`vehicleCount.1 = 2000`,
`maxCapacity.1 = 10`); `build_roads` does not clamp it, so the
capacity invariant already fails after the first phase (the light
update) of the first step, and still fails after the complete step. -/
theorem capacity_not_established_at_build :
    ¬ capOK (update_traffic_lights 4 5 (build_roads overfullStore 1)) ∧
    ¬ capOK ((step [] 5 4 (build_roads overfullStore 1)).roads) := by decide

/-- Counterexample to claim C8 as stated: the value `""a""` carries two
layers of double quotes; one-layer unquoting would give `"a"`, but the
source's `strip('"')` removes every leading and trailing quote and
yields `a`. -/
theorem unquote_strips_all_layers_cex :
    parse_mib_text ["k = \"\"a\"\""] = [("k", "a")] ∧
    unquoteOneLayer "\"\"a\"\"" = "\"a\"" ∧ ("a" : String) ≠ "\"a\"" := by decide

/-- Dropping a satisfying prefix is the same as dropping its length. -/
theorem dropWhile_eq_drop_takeWhile (p : Char → Bool) (l : List Char) :
    l.dropWhile p = l.drop (l.takeWhile p).length := by
  induction l with
  | nil => rfl
  | cons a t ih => by_cases h : p a <;> simp [List.dropWhile_cons, List.takeWhile_cons, h, ih]

/-- One-character stripping removes exactly the maximal leading run and
then the maximal trailing run of the character. -/
theorem stripWith_eq_runs (c : Char) (l : List Char) :
    stripWith (fun x => x == c) l =
      (l.drop (l.takeWhile (fun x => x == c)).length).take
        ((l.drop (l.takeWhile (fun x => x == c)).length).length -
          ((l.drop (l.takeWhile (fun x => x == c)).length).reverse.takeWhile
            (fun x => x == c)).length) := by
  unfold stripWith
  rw [dropWhile_eq_drop_takeWhile]
  rw [dropWhile_eq_drop_takeWhile]
  rw [List.reverse_drop]
  simp

/-- Claim C8 (amended): the decoded value is the raw value with the
whitespace trimmed, then *all* leading and trailing double-quote
characters removed, then *all* leading and trailing single-quote
characters removed — matching of quote pairs is not required, so
multiple same-type layers and unmatched boundary quotes are stripped
as well. -/
theorem parseValue_strips_runs (v : String) :
    parseValue v = stripRunsSpec squote (stripRunsSpec dquote (pyStrip v)) := by
  unfold parseValue stripRunsSpec pyStripChar
  simp only [stripWith_eq_runs]

/-- Removing the trailing newline run is the identity on a line that
contains no newline (every line produced by `splitlines`). -/
theorem rstrip_nl_id (l : String) (h : nlChar ∉ l.toList) : pyRstripChar nlChar l = l := by
  unfold pyRstripChar
  have hd : l.toList.reverse.dropWhile (fun x => x == nlChar) = l.toList.reverse := by
    cases hrev : l.toList.reverse with
    | nil => simp
    | cons a t =>
      have ha : a ∈ l.toList := by
        rw [← List.mem_reverse, hrev]
        exact List.mem_cons_self a t
      have hne : (a == nlChar) = false := by
        simp only [beq_eq_false_iff_ne, ne_eq]
        intro heq
        exact h (heq ▸ ha)
      simp [List.dropWhile_cons, hne]
  rw [hd]
  simp only [List.reverse_reverse]
  rfl

/-- Claim C9: re-encoding a decoded store with an empty update mapping
reproduces every line of the original file byte-identically (comments,
blanks and unrecognized lines included), so decoding the re-encoded
text yields exactly the same key→value mapping. -/
theorem rewrite_empty_update_roundtrip (raw : List String)
    (h : ∀ l ∈ raw, nlChar ∉ l.toList) :
    atomic_write_mib raw [] = raw ∧
    parse_mib_text (atomic_write_mib raw []) = parse_mib_text raw := by
  have hmain : atomic_write_mib raw [] = raw := by
    unfold atomic_write_mib
    simp only [storeGet, List.find?_nil, Option.map_none, List.filter_nil, List.map_nil,
      List.append_nil]
    have hid : ∀ l ∈ raw,
        (if !(containsChar l (Char.ofNat 61)) || strStartsWith (pyStrip l) "#" then
          pyRstripChar nlChar l
        else
          match (none : Option String) with
          | some v => pyStrip (splitFirstLeft (Char.ofNat 61) l) ++ " = " ++ v
          | none => pyRstripChar nlChar l) = l := by
      intro l hl
      have := rstrip_nl_id l (h l hl)
      split_ifs <;> simp [this]
    calc raw.map _ = raw.map id := List.map_congr_left hid
    _ = raw := List.map_id raw
  exact ⟨hmain, by rw [hmain]⟩

/-- Witness for C9 on the concrete demo file. -/
theorem rewrite_empty_update_roundtrip_witness :
    atomic_write_mib demoRaw [] = demoRaw ∧
    parse_mib_text (atomic_write_mib demoRaw []) = parse_mib_text demoRaw :=
  rewrite_empty_update_roundtrip demoRaw (by decide)

theorem updateLight_idx (fy ss : Int) (r : Road) : (updateLight fy ss r).idx = r.idx := by
  unfold updateLight
  dsimp only
  split_ifs <;> rfl

theorem updateLight_count (fy ss : Int) (r : Road) :
    (updateLight fy ss r).vehicleCount = r.vehicleCount := by
  unfold updateLight
  dsimp only
  split_ifs <;> rfl

theorem injRoad_idx (ss : Int) (r : Road) : (injRoad ss r).idx = r.idx := by
  unfold injRoad
  dsimp only
  split_ifs <;> rfl

theorem injRoad_count (ss : Int) (r : Road) :
    (injRoad ss r).vehicleCount = r.vehicleCount + injAdmitted ss r := by
  unfold injRoad injAdmitted
  dsimp only
  split_ifs <;> simp

theorem sum_map_add (f g : Road → Int) (l : List Road) :
    (l.map (fun r => f r + g r)).sum = (l.map f).sum + (l.map g).sum := by
  induction l with
  | nil => simp
  | cons a t ih =>
    simp only [List.map_cons, List.sum_cons, ih]
    omega

theorem idxs_updCount (rs : List Road) (i d : Int) : idxs (updCount rs i d) = idxs rs := by
  unfold idxs updCount
  rw [List.map_map]
  refine List.map_congr_left ?_
  intro r _
  by_cases h : r.idx = i <;> simp [h]

theorem sumVC_updCount (rs : List Road) (i d : Int) :
    sumVC (updCount rs i d) = sumVC rs + (rs.countP (fun r => r.idx = i) : Int) * d := by
  unfold sumVC updCount
  induction rs with
  | nil => simp
  | cons a t ih =>
    by_cases h : a.idx = i <;>
      simp [List.map_cons, List.sum_cons, List.countP_cons, h, ih, -List.map_map] <;>
      ring

theorem countP_idx_eq_one (rs : List Road) (i : Int)
    (hn : (idxs rs).Nodup) (hm : i ∈ idxs rs) :
    rs.countP (fun r => r.idx = i) = 1 := by
  have h1 : rs.countP (fun r => r.idx = i) = (idxs rs).count i := by
    unfold idxs
    rw [List.count, List.countP_map]
    refine List.countP_congr ?_
    intro r _
    by_cases h : r.idx = i <;> simp [h]
  rw [h1]
  exact List.count_eq_one_of_mem hn hm

theorem findRoad_mem (rs : List Road) (i : Int) (r : Road)
    (h : findRoad rs i = some r) : r ∈ rs ∧ r.idx = i := by
  unfold findRoad at h
  refine ⟨List.mem_of_find?_eq_some h, ?_⟩
  have := List.find?_some h
  simpa using this

theorem countP_idx_updCount (rs : List Road) (i d j : Int) :
    (updCount rs i d).countP (fun r => r.idx = j) = rs.countP (fun r => r.idx = j) := by
  unfold updCount
  rw [List.countP_map]
  refine List.countP_congr ?_
  intro r _
  by_cases h : r.idx = i <;> simp [h]

theorem mem_idxs_of_findRoad (rs : List Road) (i : Int) (r : Road)
    (h : findRoad rs i = some r) : i ∈ idxs rs := by
  obtain ⟨hm, hi⟩ := findRoad_mem rs i r h
  exact hi ▸ List.mem_map_of_mem _ hm

theorem processAlloc_inv (rid alloc dest : Int) (st : MoveSt)
    (hn : (idxs st.roads).Nodup) (hrid : rid ∈ idxs st.roads) :
    sumVC (processAlloc rid st alloc dest).roads + (processAlloc rid st alloc dest).egress
        = sumVC st.roads + st.egress ∧
    idxs (processAlloc rid st alloc dest).roads = idxs st.roads ∧
    st.blocked ≤ (processAlloc rid st alloc dest).blocked := by
  unfold processAlloc
  by_cases ha : alloc ≤ 0
  · simp [ha]
  · rw [if_neg ha]
    cases hf : findRoad st.roads dest with
    | none =>
      dsimp only
      refine ⟨?_, idxs_updCount _ _ _, le_refl _⟩
      rw [sumVC_updCount, countP_idx_eq_one st.roads rid hn hrid]
      ring
    | some dr =>
      have hdm : dest ∈ idxs st.roads := mem_idxs_of_findRoad st.roads dest dr hf
      dsimp only
      by_cases hm : alloc ⊓ (0 ⊔ (dr.maxCapacity - dr.vehicleCount)) ≤ 0
      · rw [if_pos hm]
        exact ⟨rfl, rfl, by dsimp only; omega⟩
      · rw [if_neg hm]
        refine ⟨?_, by rw [idxs_updCount, idxs_updCount], le_refl _⟩
        rw [sumVC_updCount, countP_idx_updCount, sumVC_updCount,
          countP_idx_eq_one st.roads rid hn hrid, countP_idx_eq_one st.roads dest hn hdm]
        ring

theorem allocFold_inv (rid : Int) (f : Nat → Int) (l : List (Nat × Int)) (st : MoveSt)
    (hn : (idxs st.roads).Nodup) (hrid : rid ∈ idxs st.roads) :
    sumVC (l.foldl (fun s p => processAlloc rid s (f p.1) p.2) st).roads
        + (l.foldl (fun s p => processAlloc rid s (f p.1) p.2) st).egress
      = sumVC st.roads + st.egress ∧
    idxs (l.foldl (fun s p => processAlloc rid s (f p.1) p.2) st).roads = idxs st.roads ∧
    st.blocked ≤ (l.foldl (fun s p => processAlloc rid s (f p.1) p.2) st).blocked := by
  induction l generalizing st with
  | nil => exact ⟨rfl, rfl, le_refl _⟩
  | cons p t ih =>
    obtain ⟨e1, i1, b1⟩ := processAlloc_inv rid (f p.1) p.2 st hn hrid
    obtain ⟨e2, i2, b2⟩ := ih (processAlloc rid st (f p.1) p.2) (i1 ▸ hn) (i1 ▸ hrid)
    refine ⟨?_, ?_, ?_⟩
    · rw [List.foldl_cons, e2, e1]
    · rw [List.foldl_cons, i2, i1]
    · rw [List.foldl_cons]
      omega

theorem processOrigin_inv (dm : List (Int × List Int)) (ss : Int) (st : MoveSt) (r_snap : Road)
    (hn : (idxs st.roads).Nodup) (hrid : r_snap.idx ∈ idxs st.roads) :
    sumVC (processOrigin dm ss st r_snap).roads + (processOrigin dm ss st r_snap).egress
        = sumVC st.roads + st.egress ∧
    idxs (processOrigin dm ss st r_snap).roads = idxs st.roads ∧
    st.blocked ≤ (processOrigin dm ss st r_snap).blocked := by
  unfold processOrigin
  split_ifs with h1 h2 h3
  · exact ⟨rfl, rfl, le_refl _⟩
  · exact ⟨rfl, rfl, le_refl _⟩
  · refine ⟨?_, idxs_updCount _ _ _, le_refl _⟩
    rw [sumVC_updCount, countP_idx_eq_one st.roads r_snap.idx hn hrid]
    ring
  · exact allocFold_inv r_snap.idx _ _ st hn hrid

theorem moveFold_inv (dm : List (Int × List Int)) (ss : Int) (snap : List Road) (st : MoveSt)
    (hn : (idxs st.roads).Nodup) (hmem : ∀ r ∈ snap, r.idx ∈ idxs st.roads) :
    sumVC (snap.foldl (processOrigin dm ss) st).roads
        + (snap.foldl (processOrigin dm ss) st).egress
      = sumVC st.roads + st.egress ∧
    idxs (snap.foldl (processOrigin dm ss) st).roads = idxs st.roads ∧
    st.blocked ≤ (snap.foldl (processOrigin dm ss) st).blocked := by
  induction snap generalizing st with
  | nil => exact ⟨rfl, rfl, le_refl _⟩
  | cons a t ih =>
    obtain ⟨e1, i1, b1⟩ := processOrigin_inv dm ss st a hn (hmem a (List.mem_cons_self a t))
    obtain ⟨e2, i2, b2⟩ := ih (processOrigin dm ss st a) (i1 ▸ hn)
      (fun r hr => i1 ▸ hmem r (List.mem_cons_of_mem a hr))
    refine ⟨?_, ?_, ?_⟩
    · rw [List.foldl_cons, e2, e1]
    · rw [List.foldl_cons, i2, i1]
    · rw [List.foldl_cons]
      omega



theorem idxs_lights (fy ss : Int) (rs : List Road) :
    idxs (update_traffic_lights fy ss rs) = idxs rs := by
  unfold update_traffic_lights idxs
  rw [List.map_map]
  exact List.map_congr_left (fun r _ => updateLight_idx fy ss r)

theorem sumVC_lights (fy ss : Int) (rs : List Road) :
    sumVC (update_traffic_lights fy ss rs) = sumVC rs := by
  unfold update_traffic_lights sumVC
  rw [List.map_map]
  exact congrArg List.sum (List.map_congr_left (fun r _ => updateLight_count fy ss r))

theorem idxs_inject (ss : Int) (rs : List Road) : idxs (phaseInject ss rs) = idxs rs := by
  unfold phaseInject idxs
  rw [List.map_map]
  exact List.map_congr_left (fun r _ => injRoad_idx ss r)

theorem sumVC_inject (ss : Int) (rs : List Road) :
    sumVC (phaseInject ss rs) = sumVC rs + (rs.map (injAdmitted ss)).sum := by
  unfold phaseInject sumVC
  rw [List.map_map]
  have h : rs.map (fun r => (injRoad ss r).vehicleCount)
      = rs.map (fun r => r.vehicleCount + injAdmitted ss r) :=
    List.map_congr_left (fun r _ => injRoad_count ss r)
  have h2 : (fun r => r.vehicleCount) ∘ injRoad ss = fun r => (injRoad ss r).vehicleCount := rfl
  rw [h2, h, sum_map_add]

theorem sumVC_wait (ss : Int) (rs : List Road) : sumVC (phaseWait ss rs) = sumVC rs := by
  unfold phaseWait sumVC
  rw [List.map_map]
  rfl

theorem injDropped_nonneg (ss : Int) (r : Road) : 0 ≤ injDropped ss r := by
  unfold injDropped injAttempt injAdmitted
  dsimp only
  split_ifs <;> omega

theorem sum_map_nonneg (f : Road → Int) (l : List Road) (h : ∀ r, 0 ≤ f r) :
    0 ≤ (l.map f).sum := by
  induction l with
  | nil => simp
  | cons a t ih =>
    simp only [List.map_cons, List.sum_cons]
    have := h a
    omega

/-- Claim C2: vehicles are exactly accounted for in every step.  With
distinct road ids, the total vehicle count after the step equals the
total before plus the admitted injections minus the external egress
(vehicles that left through a missing or unknown destination); the
step's blocked counter decomposes into the injection drops plus the
movement blocks, the accumulator output of the injection phase is
exactly admitted-plus-dropped, and both blocked parts are non-negative
— no vehicle is duplicated or silently destroyed. -/
theorem step_vehicle_conservation (dm : List (Int × List Int)) (ss fy : Int) (rs : List Road)
    (hn : (idxs rs).Nodup) :
    sumVC (step dm ss fy rs).roads
        = sumVC rs + (step dm ss fy rs).injected - (step dm ss fy rs).egress ∧
    (step dm ss fy rs).blocked
        = (step dm ss fy rs).injectedBlocked + (step dm ss fy rs).moveBlocked ∧
    stepInjAttempt ss fy rs
        = (step dm ss fy rs).injected + (step dm ss fy rs).injectedBlocked ∧
    0 ≤ (step dm ss fy rs).injectedBlocked ∧ 0 ≤ (step dm ss fy rs).moveBlocked := by
  unfold step stepInjAttempt
  dsimp only
  have hn2 : (idxs (phaseInject ss (update_traffic_lights fy ss rs))).Nodup := by
    rw [idxs_inject, idxs_lights]
    exact hn
  have hmem : ∀ r ∈ phaseInject ss (update_traffic_lights fy ss rs),
      r.idx ∈ idxs (phaseInject ss (update_traffic_lights fy ss rs)) :=
    fun r hr => List.mem_map_of_mem _ hr
  obtain ⟨e1, i1, b1⟩ := moveFold_inv dm ss
    (phaseInject ss (update_traffic_lights fy ss rs))
    { roads := phaseInject ss (update_traffic_lights fy ss rs),
      moved := 0, blocked := 0, egress := 0 } hn2 hmem
  refine ⟨?_, rfl, ?_, ?_, ?_⟩
  · unfold phaseMove
    rw [sumVC_wait]
    have e2 := sumVC_inject ss (update_traffic_lights fy ss rs)
    have e3 := sumVC_lights fy ss rs
    dsimp only at e1
    omega
  · have hcongr : (update_traffic_lights fy ss rs).map (injAttempt ss)
        = (update_traffic_lights fy ss rs).map
            (fun r => injAdmitted ss r + injDropped ss r) :=
      List.map_congr_left (fun r _ => by unfold injDropped; ring)
    rw [hcongr, sum_map_add]
  · exact sum_map_nonneg _ _ (injDropped_nonneg ss)
  · unfold phaseMove
    dsimp only at b1
    exact b1

/-- Witness for C2 on the concrete tie-break network. -/
theorem step_vehicle_conservation_witness :
    sumVC (step tieMap 60 4 tieNet).roads
        = sumVC tieNet + (step tieMap 60 4 tieNet).injected - (step tieMap 60 4 tieNet).egress ∧
    (step tieMap 60 4 tieNet).blocked
        = (step tieMap 60 4 tieNet).injectedBlocked + (step tieMap 60 4 tieNet).moveBlocked ∧
    stepInjAttempt 60 4 tieNet
        = (step tieMap 60 4 tieNet).injected + (step tieMap 60 4 tieNet).injectedBlocked ∧
    0 ≤ (step tieMap 60 4 tieNet).injectedBlocked ∧ 0 ≤ (step tieMap 60 4 tieNet).moveBlocked :=
  step_vehicle_conservation tieMap 60 4 tieNet (by decide)

theorem updateLight_cap (fy ss : Int) (r : Road) :
    (updateLight fy ss r).maxCapacity = r.maxCapacity := by
  unfold updateLight
  dsimp only
  split_ifs <;> rfl

theorem injRoad_cap (ss : Int) (r : Road) :
    (injRoad ss r).maxCapacity = r.maxCapacity := by
  unfold injRoad
  dsimp only
  split_ifs <;> rfl

theorem injAdmitted_bounds (ss : Int) (r : Road) (h0 : 0 ≤ r.vehicleCount)
    (h1 : r.vehicleCount ≤ r.maxCapacity) :
    0 ≤ injAdmitted ss r ∧ r.vehicleCount + injAdmitted ss r ≤ r.maxCapacity := by
  unfold injAdmitted
  dsimp only
  split_ifs <;> constructor <;> omega

theorem capOK_lights (fy ss : Int) (rs : List Road) (h : capOK rs) :
    capOK (update_traffic_lights fy ss rs) := by
  intro r hr
  obtain ⟨s, hs, rfl⟩ := List.mem_map.mp hr
  rw [updateLight_count, updateLight_cap]
  exact h s hs

theorem capOK_inject (ss : Int) (rs : List Road) (h : capOK rs) :
    capOK (phaseInject ss rs) := by
  intro r hr
  obtain ⟨s, hs, rfl⟩ := List.mem_map.mp hr
  rw [injRoad_count, injRoad_cap]
  obtain ⟨h0, h1⟩ := h s hs
  obtain ⟨h2, h3⟩ := injAdmitted_bounds ss s h0 h1
  constructor <;> omega

theorem capOK_wait (ss : Int) (rs : List Road) (h : capOK rs) :
    capOK (phaseWait ss rs) := by
  intro r hr
  obtain ⟨s, hs, rfl⟩ := List.mem_map.mp hr
  exact h s hs

theorem idxs_wait (ss : Int) (rs : List Road) : idxs (phaseWait ss rs) = idxs rs := by
  unfold phaseWait idxs
  rw [List.map_map]
  rfl

theorem build_road_bounds (data : Store) (i : Int) :
    0 ≤ (build_road data i).vehicleCount ∧ 0 < (build_road data i).maxCapacity := by
  unfold build_road
  dsimp only
  constructor <;> split_ifs <;> omega



theorem findRoad_eq_some_of_mem (rs : List Road) (r : Road)
    (hn : (idxs rs).Nodup) (hr : r ∈ rs) : findRoad rs r.idx = some r := by
  induction rs with
  | nil => cases hr
  | cons a t ih =>
    rcases List.mem_cons.mp hr with h | h
    · subst h
      unfold findRoad
      simp [List.find?_cons_of_pos]
    · have hni : a.idx ∉ idxs t := by
        have := List.nodup_cons.mp hn
        exact this.1
      have hne : a.idx ≠ r.idx := by
        intro heq
        exact hni (heq ▸ List.mem_map_of_mem _ h)
      unfold findRoad at ih ⊢
      rw [List.find?_cons_of_neg _ (by simpa using hne)]
      exact ih (List.nodup_cons.mp hn).2 h

theorem vcOf_eq_of_mem (rs : List Road) (r : Road)
    (hn : (idxs rs).Nodup) (hr : r ∈ rs) : vcOf rs r.idx = r.vehicleCount := by
  unfold vcOf
  rw [findRoad_eq_some_of_mem rs r hn hr]

theorem findRoad_updCount (rs : List Road) (i d j : Int) :
    findRoad (updCount rs i d) j = (findRoad rs j).map
      (fun r => if r.idx = i then { r with vehicleCount := r.vehicleCount + d } else r) := by
  unfold findRoad updCount
  rw [List.find?_map]
  have hp : ((fun (r : Road) => decide (r.idx = j)) ∘ fun (r : Road) =>
      if r.idx = i then { r with vehicleCount := r.vehicleCount + d } else r) =
      fun (r : Road) => decide (r.idx = j) := by
    funext r
    by_cases h : r.idx = i <;> simp [h]
  rw [hp]

theorem vcOf_updCount_self (rs : List Road) (i d : Int)
    (hm : i ∈ idxs rs) : vcOf (updCount rs i d) i = vcOf rs i + d := by
  unfold vcOf
  rw [findRoad_updCount]
  obtain ⟨r, hr, hri⟩ := List.mem_map.mp hm
  cases hf : findRoad rs i with
  | none =>
    exfalso
    unfold findRoad at hf
    have := List.find?_eq_none.mp hf r hr
    simp [hri] at this
  | some s =>
    have hs := findRoad_mem rs i s hf
    simp [hs.2]

theorem vcOf_updCount_other (rs : List Road) (i d j : Int) (hij : j ≠ i) :
    vcOf (updCount rs j d) i = vcOf rs i := by
  unfold vcOf
  rw [findRoad_updCount]
  cases hf : findRoad rs i with
  | none => rfl
  | some s =>
    have hs := findRoad_mem rs i s hf
    have : s.idx ≠ j := by rw [hs.2]; exact fun h => hij h.symm
    simp [this]



theorem updCount_updCount (rs : List Road) (i1 d1 i2 d2 : Int) :
    updCount (updCount rs i1 d1) i2 d2 =
      rs.map (fun r => { r with vehicleCount := r.vehicleCount
        + (if r.idx = i1 then d1 else 0) + (if r.idx = i2 then d2 else 0) }) := by
  unfold updCount
  rw [List.map_map]
  refine List.map_congr_left ?_
  intro r _
  by_cases h1 : r.idx = i1 <;> by_cases h2 : r.idx = i2 <;>
    simp [h1, h2] <;> split_ifs <;>
    first
    | rfl
    | (exfalso; omega)
    | simp_all

theorem processAlloc_cap (rid alloc dest : Int) (st : MoveSt)
    (hnod : (idxs st.roads).Nodup) (hrid : rid ∈ idxs st.roads)
    (hcap : capOK st.roads)
    (halloc : 0 ≤ alloc)
    (hbud : alloc ≤ vcOf st.roads rid) :
    capOK (processAlloc rid st alloc dest).roads ∧
    idxs (processAlloc rid st alloc dest).roads = idxs st.roads ∧
    vcOf st.roads rid - alloc ≤ vcOf (processAlloc rid st alloc dest).roads rid ∧
    (∀ j, j ≠ rid → vcOf st.roads j ≤ vcOf (processAlloc rid st alloc dest).roads j) := by
  unfold processAlloc
  by_cases ha : alloc ≤ 0
  · rw [if_pos ha]
    exact ⟨hcap, rfl, by omega, fun j _ => le_refl _⟩
  · rw [if_neg ha]
    cases hf : findRoad st.roads dest with
    | none =>
      dsimp only
      refine ⟨?_, idxs_updCount _ _ _, ?_, ?_⟩
      · intro r' hr'
        obtain ⟨r, hr, rfl⟩ := List.mem_map.mp hr'
        by_cases h : r.idx = rid
        · rw [if_pos h]
          dsimp only
          obtain ⟨h0, h1⟩ := hcap r hr
          have hv : vcOf st.roads rid = r.vehicleCount := by
            rw [← h]
            exact vcOf_eq_of_mem st.roads r hnod hr
          constructor <;> omega
        · rw [if_neg h]
          exact hcap r hr
      · rw [vcOf_updCount_self st.roads rid (-alloc) hrid]
        omega
      · intro j hj
        rw [vcOf_updCount_other st.roads j (-alloc) rid (Ne.symm hj)]
    | some dr =>
      obtain ⟨hdrm, hdri⟩ := findRoad_mem st.roads dest dr hf
      dsimp only
      by_cases hm : alloc ⊓ (0 ⊔ (dr.maxCapacity - dr.vehicleCount)) ≤ 0
      · rw [if_pos hm]
        exact ⟨hcap, rfl, by dsimp only; omega, fun j _ => le_refl _⟩
      · rw [if_neg hm]
        have hdm : dest ∈ idxs st.roads := hdri ▸ List.mem_map_of_mem _ hdrm
        refine ⟨?_, by rw [idxs_updCount, idxs_updCount], ?_, ?_⟩
        · rw [updCount_updCount]
          intro r' hr'
          obtain ⟨r, hr, rfl⟩ := List.mem_map.mp hr'
          dsimp only
          obtain ⟨h0, h1⟩ := hcap r hr
          by_cases hd : r.idx = dest
          · have hrdr : r = dr := by
              have h2 := findRoad_eq_some_of_mem st.roads r hnod hr
              rw [hd, hf] at h2
              exact (Option.some.injEq _ _ ▸ h2).symm
            by_cases hr2 : r.idx = rid
            · rw [if_pos hd, if_pos hr2]
              subst hrdr
              constructor <;> omega
            · rw [if_pos hd, if_neg hr2]
              subst hrdr
              constructor <;> omega
          · by_cases hr2 : r.idx = rid
            · rw [if_neg hd, if_pos hr2]
              have hv : vcOf st.roads rid = r.vehicleCount := by
                rw [← hr2]
                exact vcOf_eq_of_mem st.roads r hnod hr
              constructor <;> omega
            · rw [if_neg hd, if_neg hr2]
              constructor <;> omega
        · by_cases hrd : rid = dest
          · subst hrd
            rw [vcOf_updCount_self _ rid _ (by rw [idxs_updCount]; exact hrid),
              vcOf_updCount_self st.roads rid _ hrid]
            omega
          · rw [vcOf_updCount_self _ rid _ (by rw [idxs_updCount]; exact hrid),
              vcOf_updCount_other st.roads rid _ dest (Ne.symm hrd)]
            omega
        · intro j hj
          by_cases hjd : j = dest
          · subst hjd
            rw [vcOf_updCount_other _ j _ rid (Ne.symm hj),
              vcOf_updCount_self st.roads j _ hdm]
            omega
          · rw [vcOf_updCount_other _ j _ rid (Ne.symm hj),
              vcOf_updCount_other st.roads j _ dest (Ne.symm hjd)]
theorem allocAt_nonneg (cc n : Int) (hcc : 0 ≤ cc) (hn : 0 < n) (i : Nat) :
    0 ≤ allocAt cc n i := by
  unfold allocAt
  have h : 0 ≤ cc / n := Int.ediv_nonneg hcc (le_of_lt hn)
  split_ifs <;> omega

theorem allocSum_nonneg (cc n : Int) (hcc : 0 ≤ cc) (hn : 0 < n) (l : List (Nat × Int)) :
    0 ≤ (l.map (fun p => allocAt cc n p.1)).sum := by
  induction l with
  | nil => simp
  | cons p t ih =>
    simp only [List.map_cons, List.sum_cons]
    have := allocAt_nonneg cc n hcc hn p.1
    omega

theorem allocSum_enumFrom_le (cc n : Int) (hn : 0 < n) (ds : List Int) :
    ∀ k : Nat,
      ((ds.enumFrom k).map (fun p => allocAt cc n p.1)).sum ≤
        (ds.length : Int) * (cc / n) + max 0 (cc % n - (k : Int)) := by
  induction ds with
  | nil =>
    intro k
    simp only [List.enumFrom, List.map_nil, List.sum_nil, List.length_nil]
    have h0 : ((0 : Nat) : Int) * (cc / n) = 0 := by simp
    omega
  | cons a t ih =>
    intro k
    have hiht := ih (k + 1)
    have hk : (((k + 1 : Nat)) : Int) = (k : Int) + 1 := by push_cast; ring
    rw [hk] at hiht
    have hhead : allocAt cc n k = cc / n + (if (k : Int) < cc % n then 1 else 0) := rfl
    show allocAt cc n k + ((t.enumFrom (k+1)).map (fun p => allocAt cc n p.1)).sum ≤ _
    have hstep : ((a :: t).length : Int) * (cc / n) = (t.length : Int) * (cc / n) + cc / n := by
      simp only [List.length_cons]
      push_cast
      ring
    rw [hhead, hstep]
    generalize hq : cc / n = q at hiht ⊢
    generalize hP : (t.length : Int) * q = P at hiht ⊢
    generalize hS : ((t.enumFrom (k+1)).map (fun p => allocAt cc n p.1)).sum = S at hiht ⊢
    split_ifs <;> omega

theorem allocSum_enum_le (cc n : Int) (hn : 0 < n) (ds : List Int)
    (hlen : (ds.length : Int) = n) (hcc : 0 ≤ cc) :
    ((ds.enum).map (fun p => allocAt cc n p.1)).sum ≤ cc := by
  have h := allocSum_enumFrom_le cc n hn ds 0
  rw [hlen] at h
  have hdm := Int.ediv_add_emod cc n
  have hmod : 0 ≤ cc % n := Int.emod_nonneg cc (by omega)
  have henum : ds.enum = ds.enumFrom 0 := rfl
  rw [henum]
  generalize hq : cc / n = q at h hdm
  generalize hP : n * q = P at h hdm
  omega
theorem allocFold_cap (rid cc n : Int) (l : List (Nat × Int)) (st : MoveSt)
    (hnod : (idxs st.roads).Nodup) (hrid : rid ∈ idxs st.roads) (hcap : capOK st.roads)
    (hcc : 0 ≤ cc) (hn : 0 < n)
    (hbud : (l.map (fun p => allocAt cc n p.1)).sum ≤ vcOf st.roads rid) :
    capOK (l.foldl (fun s p => processAlloc rid s (allocAt cc n p.1) p.2) st).roads ∧
    idxs (l.foldl (fun s p => processAlloc rid s (allocAt cc n p.1) p.2) st).roads
      = idxs st.roads ∧
    (∀ j, j ≠ rid →
      vcOf st.roads j ≤
        vcOf (l.foldl (fun s p => processAlloc rid s (allocAt cc n p.1) p.2) st).roads j) := by
  induction l generalizing st with
  | nil => exact ⟨hcap, rfl, fun j _ => le_refl _⟩
  | cons p t ih =>
    have ha0 : 0 ≤ allocAt cc n p.1 := allocAt_nonneg cc n hcc hn p.1
    have hts : 0 ≤ (t.map (fun q => allocAt cc n q.1)).sum := allocSum_nonneg cc n hcc hn t
    have hsum : (( (p :: t).map (fun q => allocAt cc n q.1)).sum)
        = allocAt cc n p.1 + (t.map (fun q => allocAt cc n q.1)).sum := by
      simp [List.map_cons, List.sum_cons]
    have hbudhead : allocAt cc n p.1 ≤ vcOf st.roads rid := by
      rw [hsum] at hbud
      omega
    obtain ⟨c1, i1, v1, m1⟩ :=
      processAlloc_cap rid (allocAt cc n p.1) p.2 st hnod hrid hcap ha0 hbudhead
    have hbud2 : (t.map (fun q => allocAt cc n q.1)).sum ≤
        vcOf (processAlloc rid st (allocAt cc n p.1) p.2).roads rid := by
      rw [hsum] at hbud
      omega
    obtain ⟨c2, i2, m2⟩ := ih (processAlloc rid st (allocAt cc n p.1) p.2)
      (i1 ▸ hnod) (i1 ▸ hrid) c1 hbud2
    refine ⟨c2, by rw [List.foldl_cons, i2, i1], ?_⟩
    intro j hj
    rw [List.foldl_cons]
    exact le_trans (m1 j hj) (m2 j hj)

theorem processOrigin_cap (dm : List (Int × List Int)) (ss : Int) (st : MoveSt) (r_snap : Road)
    (hnod : (idxs st.roads).Nodup) (hmem : r_snap.idx ∈ idxs st.roads)
    (hcap : capOK st.roads)
    (hbud : r_snap.vehicleCount ≤ vcOf st.roads r_snap.idx) :
    capOK (processOrigin dm ss st r_snap).roads ∧
    idxs (processOrigin dm ss st r_snap).roads = idxs st.roads ∧
    (∀ j, j ≠ r_snap.idx →
      vcOf st.roads j ≤ vcOf (processOrigin dm ss st r_snap).roads j) := by
  unfold processOrigin
  split_ifs with h1 h2 h3
  · exact ⟨hcap, rfl, fun j _ => le_refl _⟩
  · exact ⟨hcap, rfl, fun j _ => le_refl _⟩
  · -- external egress of the whole can_cross
    have hccpos : ¬ canCrossOf ss r_snap ≤ 0 := h2
    have hccle : canCrossOf ss r_snap ≤ vcOf st.roads r_snap.idx :=
      le_trans (min_le_left _ _) hbud
    refine ⟨?_, idxs_updCount _ _ _, ?_⟩
    · intro r' hr'
      obtain ⟨r, hr, rfl⟩ := List.mem_map.mp hr'
      by_cases h : r.idx = r_snap.idx
      · rw [if_pos h]
        dsimp only
        obtain ⟨h0, hc1⟩ := hcap r hr
        have hv : vcOf st.roads r_snap.idx = r.vehicleCount := by
          rw [← h]
          exact vcOf_eq_of_mem st.roads r hnod hr
        constructor <;> omega
      · rw [if_neg h]
        exact hcap r hr
    · intro j hj
      rw [vcOf_updCount_other st.roads j _ r_snap.idx (Ne.symm hj)]
  · -- split across destinations
    have hlenpos : 0 < ((destsOf dm r_snap.idx).length : Int) := by
      have : destsOf dm r_snap.idx ≠ [] := by
        intro h
        rw [h] at h3
        exact h3 rfl
      have : 0 < (destsOf dm r_snap.idx).length := List.length_pos.mpr this
      exact_mod_cast this
    have hccpos : 0 ≤ canCrossOf ss r_snap := by omega
    have hbudget :
        (((destsOf dm r_snap.idx).enum).map
          (fun p => allocAt (canCrossOf ss r_snap)
            ((destsOf dm r_snap.idx).length : Int) p.1)).sum ≤ vcOf st.roads r_snap.idx := by
      refine le_trans (allocSum_enum_le (canCrossOf ss r_snap)
        ((destsOf dm r_snap.idx).length : Int) hlenpos (destsOf dm r_snap.idx) rfl hccpos) ?_
      exact le_trans (min_le_left _ _) hbud
    exact allocFold_cap r_snap.idx (canCrossOf ss r_snap)
      ((destsOf dm r_snap.idx).length : Int) ((destsOf dm r_snap.idx).enum) st
      hnod hmem hcap hccpos hlenpos hbudget

theorem moveFold_cap (dm : List (Int × List Int)) (ss : Int) (snap : List Road) (st : MoveSt)
    (hnod : (idxs st.roads).Nodup) (hcap : capOK st.roads)
    (hsnapnd : (idxs snap).Nodup)
    (hmem : ∀ r ∈ snap, r.idx ∈ idxs st.roads ∧ r.vehicleCount ≤ vcOf st.roads r.idx) :
    capOK (snap.foldl (processOrigin dm ss) st).roads ∧
    idxs (snap.foldl (processOrigin dm ss) st).roads = idxs st.roads := by
  induction snap generalizing st with
  | nil => exact ⟨hcap, rfl⟩
  | cons a t ih =>
    obtain ⟨hm1, hb1⟩ := hmem a (List.mem_cons_self a t)
    obtain ⟨c1, i1, m1⟩ := processOrigin_cap dm ss st a hnod hm1 hcap hb1
    have hani : a.idx ∉ idxs t := (List.nodup_cons.mp hsnapnd).1
    have hmem2 : ∀ r ∈ t, r.idx ∈ idxs (processOrigin dm ss st a).roads ∧
        r.vehicleCount ≤ vcOf (processOrigin dm ss st a).roads r.idx := by
      intro r hr
      obtain ⟨hmr, hbr⟩ := hmem r (List.mem_cons_of_mem a hr)
      have hne : r.idx ≠ a.idx := by
        intro heq
        exact hani (heq ▸ List.mem_map_of_mem _ hr)
      exact ⟨i1 ▸ hmr, le_trans hbr (m1 r.idx hne)⟩
    obtain ⟨c2, i2⟩ := ih (processOrigin dm ss st a) (i1 ▸ hnod)
      c1 (List.nodup_cons.mp hsnapnd).2 hmem2
    exact ⟨c2, by rw [List.foldl_cons, i2, i1]⟩

theorem capOK_phaseMove (dm : List (Int × List Int)) (ss : Int) (rs : List Road)
    (hnod : (idxs rs).Nodup) (hcap : capOK rs) :
    capOK (phaseMove dm ss rs).roads ∧ idxs (phaseMove dm ss rs).roads = idxs rs := by
  unfold phaseMove
  exact moveFold_cap dm ss rs { roads := rs, moved := 0, blocked := 0, egress := 0 }
    hnod hcap hnod
    (fun r hr => ⟨List.mem_map_of_mem _ hr, le_of_eq (vcOf_eq_of_mem rs r hnod hr).symm⟩)
theorem idxs_step (dm : List (Int × List Int)) (ss fy : Int) (rs : List Road)
    (hnod : (idxs rs).Nodup) : idxs (step dm ss fy rs).roads = idxs rs := by
  unfold step
  dsimp only
  rw [idxs_wait]
  have hn2 : (idxs (phaseInject ss (update_traffic_lights fy ss rs))).Nodup := by
    rw [idxs_inject, idxs_lights]
    exact hnod
  have h := moveFold_inv dm ss (phaseInject ss (update_traffic_lights fy ss rs))
    { roads := phaseInject ss (update_traffic_lights fy ss rs),
      moved := 0, blocked := 0, egress := 0 } hn2
    (fun r hr => List.mem_map_of_mem _ hr)
  have h2 : idxs (phaseMove dm ss (phaseInject ss (update_traffic_lights fy ss rs))).roads
      = idxs (phaseInject ss (update_traffic_lights fy ss rs)) := by
    unfold phaseMove
    exact h.2.1
  rw [h2, idxs_inject, idxs_lights]

theorem step_cap (dm : List (Int × List Int)) (ss fy : Int) (rs : List Road)
    (hnod : (idxs rs).Nodup) (hcap : capOK rs) : capOK (step dm ss fy rs).roads := by
  unfold step
  dsimp only
  apply capOK_wait
  exact (capOK_phaseMove dm ss _
    (by rw [idxs_inject, idxs_lights]; exact hnod)
    (capOK_inject ss _ (capOK_lights fy ss rs hcap))).1

theorem iterSteps_cap (dm : List (Int × List Int)) (ss fy : Int) :
    ∀ (k : Nat) (rs : List Road), (idxs rs).Nodup → capOK rs →
      capOK (iterSteps dm ss fy k rs) := by
  intro k
  induction k with
  | zero => exact fun rs _ hc => hc
  | succ k ih =>
    intro rs hn hc
    exact ih _ (by rw [idxs_step dm ss fy rs hn]; exact hn) (step_cap dm ss fy rs hn hc)

/-- Claim C1 (amended): `build_roads` guarantees a non-negative vehicle
count and a positive capacity for every road, but does not clamp the
count to the capacity, so `0 ≤ vehicleCount ≤ maxCapacity` is *not*
established at construction (see `capacity_not_established_at_build`).
It is, however, an invariant of the simulation: for any network with
distinct road ids on which it holds, it holds again after each of the
four phases of a step (light update, injection, movement, wait
accumulation) and hence after every phase of every step of a run. -/
theorem capacity_invariant_preserved (data : Store) (n : Nat)
    (dm : List (Int × List Int)) (ss fy : Int) (rs : List Road)
    (hnod : (idxs rs).Nodup) (hcap : capOK rs) :
    (∀ r ∈ build_roads data n, 0 ≤ r.vehicleCount ∧ 0 < r.maxCapacity) ∧
    capOK (update_traffic_lights fy ss rs) ∧
    capOK (phaseInject ss (update_traffic_lights fy ss rs)) ∧
    capOK (phaseMove dm ss (phaseInject ss (update_traffic_lights fy ss rs))).roads ∧
    capOK (step dm ss fy rs).roads ∧
    ∀ k, capOK (iterSteps dm ss fy k rs) := by
  refine ⟨?_, ?_, ?_, ?_, ?_, ?_⟩
  · intro r hr
    obtain ⟨j, hj, rfl⟩ := List.mem_map.mp hr
    exact build_road_bounds data _
  · exact capOK_lights fy ss rs hcap
  · exact capOK_inject ss _ (capOK_lights fy ss rs hcap)
  · exact (capOK_phaseMove dm ss _
      (by rw [idxs_inject, idxs_lights]; exact hnod)
      (capOK_inject ss _ (capOK_lights fy ss rs hcap))).1
  · exact step_cap dm ss fy rs hnod hcap
  · exact fun k => iterSteps_cap dm ss fy k rs hnod hcap

/-- Witness for the amended C1 on the concrete tie-break network: the
invariant holds after one step and after five steps. -/
theorem capacity_invariant_preserved_witness :
    capOK (step tieMap 60 4 tieNet).roads ∧ capOK (iterSteps tieMap 60 4 5 tieNet) :=
  ⟨(capacity_invariant_preserved [] 0 tieMap 60 4 tieNet (by decide) (by decide)).2.2.2.2.1,
   (capacity_invariant_preserved [] 0 tieMap 60 4 tieNet (by decide) (by decide)).2.2.2.2.2 5⟩

/-- Claim C6 (showing the code bug): with `trafficRate = 7` and
`simulationStepSeconds = 10`, starting from a zero accumulator with
ample capacity, the source's binary64 arithmetic admits only 6 vehicles
over the first 6 steps (the seventh arrives on step 7, when the
accumulated rounding deficit is overtaken), because `10/60.0` rounds
below `1/6`; in exact arithmetic — the clear intent of the accumulator
— exactly 7 vehicles are admitted in 6 steps, as the claim states. -/
theorem fractional_injection_float_vs_exact :
    (floatInjTotal 6).1 = 6 ∧ (floatInjTotal 7).1 = 8 ∧
    (exactInjTotal 6).1 = 7 ∧ (iterInj 10 6 c6road).vehicleCount = 7 := by
  set_option maxRecDepth 40000 in decide

end SSFR
